import Mathlib

/-!
Verification of the clearcut mask-editing and compositing engine.

Shallow embedding of the TypeScript sources:
* `src/stores/appStore.ts` — history (undo/redo) store and edit-state store
* `src/lib/brushTool.ts` and `src/lib/compositing.ts` — brush strokes and
  layer compositing
* `src/components/remove/EditPreview.tsx` (and its unnamed variant) —
  preview render pipeline and crop-box geometry
* `src/components/remove/EditingView.tsx` / `RefineEdgesCanvas.tsx` —
  brush stroke event handling

Numbers that are JS `number`s are modelled as `ℚ` (exact rational
arithmetic stands in for IEEE doubles; all concrete inputs used below are
exactly representable) and array indices as `ℤ` with JS indexing
semantics made explicit.
-/

namespace Clearcut

/-! History store (appStore.ts, lines 56-195)

`history : string[]` with `historyIndex : number` (integer, `-1` when
empty).  Snapshots are opaque, so the model is generic in `α`. -/

structure HistoryState (α : Type) where
  history : List α
  historyIndex : ℤ
  deriving DecidableEq, Repr

/-- JS `array.slice(0, e)`: a negative end counts from the end of the
array, and the end is clamped to the length. -/
def jsSliceTo {α : Type} (l : List α) (e : ℤ) : List α :=
  l.take (if e < 0 then ((l.length : ℤ) + e).toNat else e.toNat)

/-- JS `array[i]` for an integer index: `undefined` (here `none`) when the
index is negative or past the end. -/
def jsIndex {α : Type} (l : List α) (i : ℤ) : Option α :=
  if i < 0 then none else l.get? i.toNat

/-- Model of `pushHistory` (appStore.ts:168-177): truncate after the current index,
append, `shift()` one entry if the length exceeds 20, and point the index
at the last entry. -/
def pushHistory {α : Type} (s : HistoryState α) (snapshot : α) : HistoryState α :=
  let newHistory := jsSliceTo s.history (s.historyIndex + 1) ++ [snapshot]
  let limited := if 20 < newHistory.length then newHistory.drop 1 else newHistory
  { history := limited, historyIndex := (limited.length : ℤ) - 1 }

/-- Model of `undo` (appStore.ts:179-185): no-op returning `null` when
`historyIndex <= 0`, else decrement and return the entry now at the
index.  The returned pair is (returned snapshot, updated store). -/
def undo {α : Type} (s : HistoryState α) : Option α × HistoryState α :=
  if s.historyIndex ≤ 0 then (none, s)
  else
    let newIndex := s.historyIndex - 1
    (jsIndex s.history newIndex, { s with historyIndex := newIndex })

/-- Model of `redo` (appStore.ts:187-193): no-op returning `null` when
`historyIndex >= history.length - 1`, else increment and return the entry
at the new index. -/
def redo {α : Type} (s : HistoryState α) : Option α × HistoryState α :=
  if s.historyIndex ≥ (s.history.length : ℤ) - 1 then (none, s)
  else
    let newIndex := s.historyIndex + 1
    (jsIndex s.history newIndex, { s with historyIndex := newIndex })

/-- Initial history state (appStore.ts:141-142): empty list, index `-1`. -/
def initialHistoryState {α : Type} : HistoryState α := ⟨[], -1⟩

/-- The store's documented index invariant: the index stays in
`[-1, length)` (`-1` only for the empty history). -/
def ValidHistory {α : Type} (s : HistoryState α) : Prop :=
  -1 ≤ s.historyIndex ∧ s.historyIndex < (s.history.length : ℤ)

/-- One undo followed by one redo, returning both returned snapshots and
the final store. -/
def undoRedoCycle {α : Type} (s : HistoryState α) :
    Option α × Option α × HistoryState α :=
  let u := undo s
  let r := redo u.2
  (u.1, r.1, r.2)

/-- The store state reached after an undo/redo cycle. -/
def cycleState {α : Type} (s : HistoryState α) : HistoryState α :=
  (undoRedoCycle s).2.2

/-- An undo or redo call (for interleaving sequences): `true` is undo,
`false` is redo. -/
def applyHistOp {α : Type} (s : HistoryState α) (op : Bool) : HistoryState α :=
  if op then (undo s).2 else (redo s).2

/-! Edit state and refine-edges state (appStore.ts, lines 4-33, 104-126,
197-258) -/

/-- Filter knobs (appStore.ts:24-29 / imageFilters.ts:1-6). -/
structure FilterState where
  brightness : ℚ
  contrast : ℚ
  saturation : ℚ
  blur : ℚ
  deriving DecidableEq, Repr

/-- Aspect-ratio selection (appStore.ts:30). -/
inductive AspectRatioSel
  | original
  | free
  | oneToOne
  | fourToThree
  | sixteenToNine
  | nineToSixteen
  deriving DecidableEq, Repr

/-- Crop rectangle (appStore.ts:4-9). -/
structure CropBox where
  x : ℚ
  y : ℚ
  width : ℚ
  height : ℚ
  deriving DecidableEq, Repr

/-- Model of `EditState` (appStore.ts:18-33). -/
structure EditState where
  rotation : ℤ
  flipHorizontal : Bool
  flipVertical : Bool
  zoom : ℚ
  pan : ℚ × ℚ
  filters : FilterState
  aspectRatio : AspectRatioSel
  cropBox : Option CropBox
  cropDisplayScale : ℚ
  deriving DecidableEq, Repr

/-- Model of `RefineEdgesState` (appStore.ts:12-16). -/
structure RefineEdgesState where
  zoom : ℚ
  pan : ℚ × ℚ
  isSpacePressed : Bool
  deriving DecidableEq, Repr

/-- The slice of the zustand store the edit/refine claims touch. -/
structure AppState where
  editState : EditState
  refineEdgesState : RefineEdgesState
  hasUnsavedEdits : Bool
  deriving DecidableEq, Repr

/-- A `Partial<EditState>` argument: absent fields are `none` and leave
the merged state unchanged, mirroring the object-spread in
`setEditState`. -/
structure EditStatePatch where
  rotation : Option ℤ := none
  flipHorizontal : Option Bool := none
  flipVertical : Option Bool := none
  zoom : Option ℚ := none
  pan : Option (ℚ × ℚ) := none
  filters : Option FilterState := none
  aspectRatio : Option AspectRatioSel := none
  cropBox : Option (Option CropBox) := none
  cropDisplayScale : Option ℚ := none

/-- Merge semantics of the object spread: fields present in the patch win. -/
def mergeEditState (e : EditState) (patch : EditStatePatch) : EditState where
  rotation := patch.rotation.getD e.rotation
  flipHorizontal := patch.flipHorizontal.getD e.flipHorizontal
  flipVertical := patch.flipVertical.getD e.flipVertical
  zoom := patch.zoom.getD e.zoom
  pan := patch.pan.getD e.pan
  filters := patch.filters.getD e.filters
  aspectRatio := patch.aspectRatio.getD e.aspectRatio
  cropBox := patch.cropBox.getD e.cropBox
  cropDisplayScale := patch.cropDisplayScale.getD e.cropDisplayScale

/-- Model of `setEditState` (appStore.ts:197-200): merge the patch into the edit
state and flag unsaved edits.  No clamping of any field. -/
def setEditState (s : AppState) (patch : EditStatePatch) : AppState :=
  { s with editState := mergeEditState s.editState patch, hasUnsavedEdits := true }

/-- Model of `setHasUnsavedEdits` (appStore.ts:211). -/
def setHasUnsavedEdits (s : AppState) (value : Bool) : AppState :=
  { s with hasUnsavedEdits := value }

/-- Model of `handleZoomChange` (TransformControls.tsx:58-61): store the slider
value via `setEditState` and set the unsaved flag.  There is no clamp in
this path. -/
def handleZoomChange (s : AppState) (value : ℚ) : AppState :=
  setHasUnsavedEdits (setEditState s { zoom := some value }) true

/-- Model of `setRefineZoom` (appStore.ts:232-237): the refine viewport's zoom is
clamped to `[1.0, 4.0]` on every update. -/
def setRefineZoom (s : AppState) (zoom : ℚ) : AppState :=
  { s with
    refineEdgesState :=
      { s.refineEdgesState with zoom := max 1 (min 4 zoom) } }

/-- The new zoom computed by the wheel handler of the unnamed EditPreview
variant (part_001:145-146): multiplicative step, clamped to `[0.5, 3.0]`
before being stored through `setEditState`. -/
def handleWheelNewZoom (zoom deltaY : ℚ) : ℚ :=
  let zoomFactor := if deltaY > 0 then (9 : ℚ) / 10 else (11 : ℚ) / 10
  max (1 / 2) (min 3 (zoom * zoomFactor))

/-- Model of `editInitialState` (appStore.ts:104-119). -/
def editInitialState : EditState where
  rotation := 0
  flipHorizontal := false
  flipVertical := false
  zoom := 1
  pan := (0, 0)
  filters := { brightness := 100, contrast := 100, saturation := 100, blur := 0 }
  aspectRatio := AspectRatioSel.original
  cropBox := none
  cropDisplayScale := 1

/-- Model of `refineEdgesInitialState` (appStore.ts:122-126). -/
def refineEdgesInitialState : RefineEdgesState where
  zoom := 1
  pan := (0, 0)
  isSpacePressed := false

/-- The initial store slice (appStore.ts:128-150). -/
def initialAppState : AppState where
  editState := editInitialState
  refineEdgesState := refineEdgesInitialState
  hasUnsavedEdits := false

/-! Crop-box geometry (EditPreview.tsx) -/

/-- Constant `MIN_CROP_SIZE` (EditPreview.tsx:10). -/
def MIN_CROP_SIZE : ℚ := 50

/-- Which crop handle a drag runs against (EditPreview.tsx:36). -/
inductive HandleType
  | tl | tr | bl | br
  | top | bottom | left | right
  | move
  deriving DecidableEq, Repr

/-- Model of `enforceBounds` (EditPreview.tsx:148-191), statement for statement:
minimum size, aspect-lock adjustment, position clamp, then the
shrink-if-still-out-of-bounds pass.  The sequencing of the mutations is
preserved exactly (the position clamp uses the pre-shrink width/height,
and the width-shrink branch resets only `x`, the height-shrink branch
only `y`). -/
def enforceBounds (crop : CropBox) (canvasWidth canvasHeight : ℚ)
    (aspectRatio : Option ℚ) : CropBox :=
  let w0 := max MIN_CROP_SIZE crop.width
  let h0 := max MIN_CROP_SIZE crop.height
  let wh1 : ℚ × ℚ :=
    match aspectRatio with
    | some ar =>
        let maxWidthFromHeight := h0 * ar
        let maxHeightFromWidth := w0 / ar
        if w0 > maxWidthFromHeight then (maxWidthFromHeight, h0)
        else (w0, maxHeightFromWidth)
    | none => (w0, h0)
  let w1 := wh1.1
  let h1 := wh1.2
  let x1 := if crop.x < 0 then 0 else crop.x
  let y1 := if crop.y < 0 then 0 else crop.y
  let x2 := if x1 + w1 > canvasWidth then canvasWidth - w1 else x1
  let y2 := if y1 + h1 > canvasHeight then canvasHeight - h1 else y1
  let xwh : ℚ × ℚ × ℚ :=
    if w1 > canvasWidth then
      (0, canvasWidth,
        match aspectRatio with
        | some ar => canvasWidth / ar
        | none => h1)
    else (x2, w1, h1)
  let x3 := xwh.1
  let w2 := xwh.2.1
  let h2 := xwh.2.2
  let ywh : ℚ × ℚ × ℚ :=
    if h2 > canvasHeight then
      (0, canvasHeight,
        match aspectRatio with
        | some ar => canvasHeight * ar
        | none => w2)
    else (y2, h2, w2)
  { x := x3, y := ywh.1, width := ywh.2.2, height := ywh.2.1 }

/-- The corner/edge resize rule shared by the four corner cases of
`handleMouseMove` (EditPreview.tsx:497-592): with an aspect lock, the
dimension that changed more (relative to the start box) wins and the
other is recomputed from the ratio. -/
def cornerAspect (startCrop : CropBox) (deltaX deltaY newWidth newHeight : ℚ)
    (aspectRatioValue : Option ℚ) : ℚ × ℚ :=
  match aspectRatioValue with
  | some ar =>
      let widthRatio := |deltaX| / startCrop.width
      let heightRatio := |deltaY| / startCrop.height
      if widthRatio > heightRatio then (newWidth, newWidth / ar)
      else (newHeight * ar, newHeight)
  | none => (newWidth, newHeight)

/-- The per-handle crop recomputation of `handleMouseMove`
(EditPreview.tsx:486-668): start box plus cumulative pointer delta,
before bounds enforcement. -/
def dragCrop (handleType : HandleType) (startCrop : CropBox)
    (deltaX deltaY : ℚ) (aspectRatioValue : Option ℚ) : CropBox :=
  match handleType with
  | HandleType.move =>
      { startCrop with x := startCrop.x + deltaX, y := startCrop.y + deltaY }
  | HandleType.br =>
      let wh := cornerAspect startCrop deltaX deltaY
        (startCrop.width + deltaX) (startCrop.height + deltaY) aspectRatioValue
      { x := startCrop.x, y := startCrop.y, width := wh.1, height := wh.2 }
  | HandleType.tl =>
      let wh := cornerAspect startCrop deltaX deltaY
        (startCrop.width - deltaX) (startCrop.height - deltaY) aspectRatioValue
      { x := startCrop.x + startCrop.width - wh.1
        y := startCrop.y + startCrop.height - wh.2
        width := wh.1, height := wh.2 }
  | HandleType.tr =>
      let wh := cornerAspect startCrop deltaX deltaY
        (startCrop.width + deltaX) (startCrop.height - deltaY) aspectRatioValue
      { x := startCrop.x
        y := startCrop.y + startCrop.height - wh.2
        width := wh.1, height := wh.2 }
  | HandleType.bl =>
      let wh := cornerAspect startCrop deltaX deltaY
        (startCrop.width - deltaX) (startCrop.height + deltaY) aspectRatioValue
      { x := startCrop.x + startCrop.width - wh.1
        y := startCrop.y
        width := wh.1, height := wh.2 }
  | HandleType.top =>
      let newHeight := startCrop.height - deltaY
      let newWidth :=
        match aspectRatioValue with
        | some ar => newHeight * ar
        | none => startCrop.width
      let widthDiff := newWidth - startCrop.width
      { x := startCrop.x - widthDiff / 2
        y := startCrop.y + startCrop.height - newHeight
        width := newWidth, height := newHeight }
  | HandleType.bottom =>
      let newHeight := startCrop.height + deltaY
      let newWidth :=
        match aspectRatioValue with
        | some ar => newHeight * ar
        | none => startCrop.width
      let widthDiff := newWidth - startCrop.width
      { x := startCrop.x - widthDiff / 2
        y := startCrop.y
        width := newWidth, height := newHeight }
  | HandleType.left =>
      let newWidth := startCrop.width - deltaX
      let newHeight :=
        match aspectRatioValue with
        | some ar => newWidth / ar
        | none => startCrop.height
      let heightDiff := newHeight - startCrop.height
      { x := startCrop.x + startCrop.width - newWidth
        y := startCrop.y - heightDiff / 2
        width := newWidth, height := newHeight }
  | HandleType.right =>
      let newWidth := startCrop.width + deltaX
      let newHeight :=
        match aspectRatioValue with
        | some ar => newWidth / ar
        | none => startCrop.height
      let heightDiff := newHeight - startCrop.height
      { x := startCrop.x
        y := startCrop.y - heightDiff / 2
        width := newWidth, height := newHeight }

/-- A full crop-drag recomputation (EditPreview.tsx:486-673): the handle
rule followed by `enforceBounds`, exactly as `handleMouseMove` stores it. -/
def cropDragRecompute (handleType : HandleType) (startCrop : CropBox)
    (deltaX deltaY : ℚ) (aspectRatioValue : Option ℚ)
    (canvasWidth canvasHeight : ℚ) : CropBox :=
  enforceBounds (dragCrop handleType startCrop deltaX deltaY aspectRatioValue)
    canvasWidth canvasHeight aspectRatioValue

/-! Pixels and canvas compositing (compositing.ts)

A pixel is non-premultiplied RGBA with every channel normalized to
`[0, 1]` (`255` in the byte encoding is `1` here).  A raster is a pixel
function over rational coordinates; all the canvases a single claim
touches share the source image's dimensions (the export canvas, the temp
canvas and the mask canvas are all created at the image's natural size),
so `drawImage` calls between them are identity mappings and rasters
compose pixelwise. -/

/-- Non-premultiplied RGBA pixel, channels in `[0, 1]`. -/
structure RGBA where
  r : ℚ
  g : ℚ
  b : ℚ
  a : ℚ
  deriving DecidableEq, Repr

/-- A point of a drawing surface. -/
abbrev CPoint := ℚ × ℚ

/-- A raster: pixel value at every point. -/
abbrev Raster := CPoint → RGBA

/-- Fully transparent black, the state of a cleared or freshly created
canvas. -/
def clearColor : RGBA := ⟨0, 0, 0, 0⟩

/-- The canvas default `source-over` composite for one pixel
(non-premultiplied Porter-Duff over). -/
def sourceOverPx (src dst : RGBA) : RGBA :=
  if src.a + dst.a * (1 - src.a) = 0 then clearColor
  else
    { r := (src.r * src.a + dst.r * dst.a * (1 - src.a)) / (src.a + dst.a * (1 - src.a))
      g := (src.g * src.a + dst.g * dst.a * (1 - src.a)) / (src.a + dst.a * (1 - src.a))
      b := (src.b * src.a + dst.b * dst.a * (1 - src.a)) / (src.a + dst.a * (1 - src.a))
      a := src.a + dst.a * (1 - src.a) }

/-- The canvas `destination-in` composite for one pixel: the destination
is kept only where the source has alpha, weighted by the source's alpha. -/
def destinationInPx (src dst : RGBA) : RGBA :=
  { r := dst.r, g := dst.g, b := dst.b, a := dst.a * src.a }

/-- An empty (fully transparent) raster: a cleared canvas. -/
def clearRaster : Raster := fun _ => clearColor

/-- Composite a source layer over a target raster pixelwise
(`ctx.drawImage` / fill with the default composite operation). -/
def compositeOver (layer target : Raster) : Raster :=
  fun p => sourceOverPx (layer p) (target p)

/-- Checkerboard square color `#ffffff` (compositing.ts:242). -/
def checkerWhite : RGBA := ⟨1, 1, 1, 1⟩

/-- Checkerboard square color `#f0f0f0` (compositing.ts:242). -/
def checkerGray : RGBA := ⟨240 / 255, 240 / 255, 240 / 255, 1⟩

/-- Model of `drawCheckerboard` (compositing.ts:236-251): opaque 16px squares,
color picked by the parity of the square indices. -/
def checkerPx (p : CPoint) : RGBA :=
  if (⌊p.1 / 16⌋ + ⌊p.2 / 16⌋) % 2 = 0 then checkerWhite else checkerGray

/-- Paint the checkerboard over a target raster. -/
def drawCheckerboard (target : Raster) : Raster :=
  compositeOver checkerPx target

/-- A `background.image` drawn to cover the canvas while keeping its aspect
ratio (compositing.ts:210-222 and the identical math in the preview
pipelines): scaled by `max (w/iw) (h/ih)` and centered; pixels outside
the drawn rectangle keep the target. -/
def drawImageCover (target img : Raster) (iw ih w h : ℚ) : Raster :=
  let scale := max (w / iw) (h / ih)
  let scaledWidth := iw * scale
  let scaledHeight := ih * scale
  let x := (w - scaledWidth) / 2
  let y := (h - scaledHeight) / 2
  fun p =>
    if x ≤ p.1 ∧ p.1 < x + scaledWidth ∧ y ≤ p.2 ∧ p.2 < y + scaledHeight then
      sourceOverPx (img ((p.1 - x) / scale, (p.2 - y) / scale)) (target p)
    else target p

/-- The background specification (compositing.ts:167-171): a background
image carries its own dimensions for the cover computation. -/
inductive Background
  | transparent
  | color (c : RGBA)
  | image (img : Raster) (iw ih : ℚ)

/-- Model of `drawBackground` (compositing.ts:198-231): solid fill, cover-scaled
image, or the checkerboard for `transparent`. -/
def drawBackground (target : Raster) (background : Background) (w h : ℚ) : Raster :=
  match background with
  | Background.color c => compositeOver (fun _ => c) target
  | Background.image img iw ih => drawImageCover target img iw ih w h
  | Background.transparent => drawCheckerboard target

/-- The content of the temp canvas inside `drawMaskedForeground`
(compositing.ts:256-273): the source image drawn onto a cleared canvas,
then `destination-in` with the mask — the foreground kept only where the
mask has alpha, weighted by it. -/
def maskedForegroundLayer (originalImage maskCanvas : Raster) : Raster :=
  fun p => destinationInPx (maskCanvas p) (sourceOverPx (originalImage p) clearColor)

/-- Model of `drawMaskedForeground` (compositing.ts:256-277): build the masked
layer on the temp canvas and draw it over the target. -/
def drawMaskedForeground (target originalImage maskCanvas : Raster) : Raster :=
  compositeOver (maskedForegroundLayer originalImage maskCanvas) target

/-- Model of `renderComposite` (compositing.ts:177-193): clear, background layer,
masked foreground. -/
def renderComposite (originalImage maskCanvas : Raster) (background : Background)
    (w h : ℚ) : Raster :=
  drawMaskedForeground (drawBackground clearRaster background w h)
    originalImage maskCanvas

/-- Model of `createExportCanvas` (brushTool.ts/compositing.ts:322-341): a fresh
canvas at the image's natural size; for a transparent background the
background layer (and so the checkerboard) is skipped entirely and only
the masked foreground is drawn; otherwise the full composite. -/
def createExportCanvas (originalImage maskCanvas : Raster)
    (background : Background) (w h : ℚ) : Raster :=
  match background with
  | Background.transparent => drawMaskedForeground clearRaster originalImage maskCanvas
  | _ => renderComposite originalImage maskCanvas background w h

/-! Filter strings (imageFilters.ts) -/

/-- The `'none'` filter value (imageFilters.ts:28). -/
def strNone : String := "none"

/-- The separator of `parts.join(' ')`. -/
def strSpace : String := " "

/-- Literal piece of the brightness CSS function. -/
def strBrightnessOpen : String := "brightness("

/-- Literal piece of the contrast CSS function. -/
def strContrastOpen : String := "contrast("

/-- Literal piece of the saturate CSS function. -/
def strSaturateOpen : String := "saturate("

/-- Literal piece of the blur CSS function. -/
def strBlurOpen : String := "blur("

/-- Closing piece of the percent-valued CSS functions. -/
def strPercentClose : String := "%)"

/-- Closing piece of the blur CSS function. -/
def strPxClose : String := "px)"

/-- Model of `buildFilterString` (imageFilters.ts:12-29): one CSS function per
non-default knob, joined by spaces; `'none'` when all are default. -/
def buildFilterString (filters : FilterState) : String :=
  let parts : List String :=
    (if filters.brightness ≠ 100 then
      [strBrightnessOpen ++ toString filters.brightness ++ strPercentClose] else [])
    ++ (if filters.contrast ≠ 100 then
      [strContrastOpen ++ toString filters.contrast ++ strPercentClose] else [])
    ++ (if filters.saturation ≠ 100 then
      [strSaturateOpen ++ toString filters.saturation ++ strPercentClose] else [])
    ++ (if filters.blur > 0 then
      [strBlurOpen ++ toString filters.blur ++ strPxClose] else [])
  if parts.length > 0 then String.intercalate strSpace parts else strNone

/-! Preview render pipelines (EditPreview.tsx:332-413 and its unnamed
variant, part_001:30-106)

The geometric transform (`applyTransforms`) and the effect of a CSS
filter string on a drawn layer are kept abstract: `trans` is the
transform the save/`applyTransforms`/restore bracket applies uniformly to
every layer drawn inside it, and `eff fs` is the effect of drawing a
layer while `ctx.filter = fs`.  What is taken from the source is the
pipeline structure: which layers are drawn, in which order, and which
filter string is in force for each. -/

/-- The background layer as the preview pipelines draw it
(EditPreview.tsx:384-398 / part_001:83-98): solid fill, cover-scaled
image, or nothing for `transparent` (the checkerboard was already painted
outside the transform/filter bracket). -/
def previewBackgroundLayer (background : Background) (w h : ℚ) : Raster :=
  match background with
  | Background.color c => fun _ => c
  | Background.image img iw ih => drawImageCover clearRaster img iw ih w h
  | Background.transparent => clearRaster

/-- Model of `renderPreview` of EditPreview.tsx:332-413: clear; checkerboard when
transparent (step 2, outside the bracket); background drawn with the
built filter string in force (steps 6-7); **filters reset** (step 8);
masked foreground drawn with filter `'none'` (step 9). -/
def renderPreview (trans : Raster → Raster) (eff : String → Raster → Raster)
    (filters : FilterState) (background : Background) (w h : ℚ)
    (originalImage maskCanvas : Raster) : Raster :=
  let base :=
    match background with
    | Background.transparent => drawCheckerboard clearRaster
    | _ => clearRaster
  let withBg :=
    compositeOver (trans (eff (buildFilterString filters)
      (previewBackgroundLayer background w h))) base
  compositeOver (trans (eff strNone
    (maskedForegroundLayer originalImage maskCanvas))) withBg

/-- Model of `renderPreview` of the unnamed EditPreview variant (part_001:30-106):
same pipeline except the filter is reset only **after** the masked
foreground is drawn (step 8 draws the foreground, step 9 resets), so the
foreground layer is drawn with the built filter string still in force. -/
def renderPreviewVariant (trans : Raster → Raster) (eff : String → Raster → Raster)
    (filters : FilterState) (background : Background) (w h : ℚ)
    (originalImage maskCanvas : Raster) : Raster :=
  let base :=
    match background with
    | Background.transparent => drawCheckerboard clearRaster
    | _ => clearRaster
  let withBg :=
    compositeOver (trans (eff (buildFilterString filters)
      (previewBackgroundLayer background w h))) base
  compositeOver (trans (eff (buildFilterString filters)
    (maskedForegroundLayer originalImage maskCanvas))) withBg

/-- A concrete demonstration filter effect for evaluating the pipelines:
drawing through any non-`'none'` filter string blackens the layer's
colors (alpha kept), drawing through `'none'` leaves it unchanged.  Any
non-identity effect witnesses the pipeline difference. -/
def effDemo (fs : String) (layer : Raster) : Raster :=
  if fs = strNone then layer
  else fun p => { r := 0, g := 0, b := 0, a := (layer p).a }

/-! Brush strokes on the mask (brushTool.ts:71-99)

The mask is single-channel: alpha in `[0, 255]` per point.  `drawBrushLine`
strokes a round-capped, round-joined line of width `size * scale * 2`
between two distinct points — geometrically a capsule of radius
`size * scale` around the segment; canvas stroking prunes zero-length
line segments, so a call with `from = to` draws nothing.  With the brush
fully opaque, `destination-out` (erase) zeroes the mask's alpha on the
covered region and `source-over` with opaque white (restore) sets it to
255 there; coverage is the ideal capsule (antialiased fractional coverage
at the 1px rim is the "mask-value rounding tolerance" the spec allows and
is not modelled). -/

/-- Single-channel mask raster, values in `[0, 255]`. -/
abbrev MaskR := CPoint → ℚ

/-- The brush mode flag (brushTool.ts:5). -/
inductive BrushMode
  | erase
  | restore
  deriving DecidableEq, Repr

/-- Squared distance from a point to the segment `[a, b]` (the clamped
projection onto the segment). -/
def sqDistToSegment (p a b : CPoint) : ℚ :=
  let dx := b.1 - a.1
  let dy := b.2 - a.2
  let len2 := dx * dx + dy * dy
  if len2 = 0 then (p.1 - a.1) * (p.1 - a.1) + (p.2 - a.2) * (p.2 - a.2)
  else
    let t := ((p.1 - a.1) * dx + (p.2 - a.2) * dy) / len2
    let tc := max 0 (min 1 t)
    let qx := a.1 + tc * dx
    let qy := a.2 + tc * dy
    (p.1 - qx) * (p.1 - qx) + (p.2 - qy) * (p.2 - qy)

/-- Model of `drawBrushLine` (brushTool.ts:71-99): for a genuine segment
(`from ≠ to`) the stroked path is the capsule of radius `size * scale`
(`lineWidth = size * scale * 2`, round cap and join) around the segment,
set to 0 in erase mode (`destination-out` with an opaque brush) or to
255 in restore mode (`source-over` with opaque white); everything outside
is untouched.  A zero-length call (`from = to`) draws nothing: canvas
stroking prunes zero-length line segments (dots are handled by the
separate arc-based `drawBrushStroke`), so the mask is unchanged. -/
def drawBrushLine (m : MaskR) (a b : CPoint) (size scale : ℚ)
    (mode : BrushMode) : MaskR :=
  let radius := size * scale
  fun p =>
    if a ≠ b ∧ sqDistToSegment p a b ≤ radius * radius then
      match mode with
      | BrushMode.erase => 0
      | BrushMode.restore => 255
    else m p

/-! Brush stroke event handling (EditingView.tsx:61-130,
RefineEdgesCanvas part_002:148-224)

Both surfaces use the same handler structure for a drawing stroke:
pointer-down (not in pan mode) sets `isDrawing` and records the position;
each move, while drawing, applies one brush segment to the mask and
advances `lastPos` — and never touches history; pointer-up and
pointer-leave, while drawing, push exactly one snapshot of the current
(post-stroke) mask and clear the drawing flag (EditingView binds
`onMouseLeave={handleMouseUp}` directly; RefineEdgesCanvas's
`handleMouseLeave` repeats the same push logic).  The model is generic in
the mask type `M` and the drawing primitive `draw` (which
is `drawBrushLine` at fixed size/mode in the source). -/

/-- Pointer/touch events reaching the drawing surface. -/
inductive BrushEvent (P : Type)
  | down (p : P)
  | move (p : P)
  | up
  | leave
  deriving DecidableEq, Repr

/-- The drawing-relevant component state: the `isDrawing`/`lastPos` refs,
the mask being edited, and the sequence of snapshots pushed to history. -/
structure BrushEngine (P M : Type) where
  isDrawing : Bool
  lastPos : Option P
  mask : M
  pushed : List M
  deriving Repr

/-- One event through the handlers of EditingView.tsx:61-130. -/
def handleBrushEvent {P M : Type} (draw : M → P → P → M)
    (s : BrushEngine P M) : BrushEvent P → BrushEngine P M
  | BrushEvent.down p => { s with isDrawing := true, lastPos := some p }
  | BrushEvent.move p =>
      match s.isDrawing, s.lastPos with
      | true, some q =>
          { s with mask := draw s.mask q p, lastPos := some p }
      | _, _ => s
  | BrushEvent.up =>
      { isDrawing := false, lastPos := none, mask := s.mask
        pushed := if s.isDrawing then s.pushed ++ [s.mask] else s.pushed }
  | BrushEvent.leave =>
      { isDrawing := false, lastPos := none, mask := s.mask
        pushed := if s.isDrawing then s.pushed ++ [s.mask] else s.pushed }

/-- Process a sequence of events. -/
def runBrush {P M : Type} (draw : M → P → P → M) (s : BrushEngine P M)
    (events : List (BrushEvent P)) : BrushEngine P M :=
  events.foldl (handleBrushEvent draw) s

/-- The mask after a stroke that went down at `p` and moved through
`moves`: each move draws one segment from the previous position. -/
def strokeResult {P M : Type} (draw : M → P → P → M) (m : M) (p : P)
    (moves : List P) : M :=
  (moves.foldl (fun acc q => (draw acc.1 acc.2 q, q)) (m, p)).1

/-! Helper lemmas -/

theorem jsSliceTo_length_le {α : Type} (l : List α) (e : ℤ) :
    (jsSliceTo l e).length ≤ l.length := by
  unfold jsSliceTo
  split <;> simp [List.length_take]

theorem pushHistory_length_le {α : Type} (s : HistoryState α) (snap : α)
    (h : s.history.length ≤ 20) : (pushHistory s snap).history.length ≤ 20 := by
  have hsl := jsSliceTo_length_le s.history (s.historyIndex + 1)
  unfold pushHistory
  simp only []
  split
  all_goals simp_all
  all_goals omega

theorem foldl_pushHistory_length_le {α : Type} (snaps : List α)
    (s : HistoryState α) (h : s.history.length ≤ 20) :
    (snaps.foldl pushHistory s).history.length ≤ 20 := by
  induction snaps generalizing s with
  | nil => exact h
  | cons snap rest ih =>
      exact ih (pushHistory s snap) (pushHistory_length_le s snap h)

theorem undo_history_eq {α : Type} (s : HistoryState α) :
    (undo s).2.history = s.history := by
  unfold undo
  split <;> rfl

theorem redo_history_eq {α : Type} (s : HistoryState α) :
    (redo s).2.history = s.history := by
  unfold redo
  split <;> rfl

theorem get?_isSome_of_int {α : Type} (l : List α) (i : ℤ)
    (h0 : 0 ≤ i) (hl : i < (l.length : ℤ)) : (jsIndex l i).isSome := by
  unfold jsIndex
  rw [if_neg (by omega)]
  rw [Option.isSome_iff_ne_none]
  intro hn
  rw [List.get?_eq_none] at hn
  omega

/-! Claim theorems -/

/-- C1.  `pushHistory` first discards every entry after the current index
(the redo branch), appends the snapshot, evicts exactly the single oldest
entry when the resulting length exceeds the capacity 20, and points the
index at the last position; consequently the history length never exceeds
20 after any sequence of pushes from the empty store. -/
theorem pushHistory_capacity {α : Type} (s : HistoryState α) (snap : α)
    (hlen : s.history.length ≤ 20) :
    ((pushHistory s snap).history =
      (if 20 < (jsSliceTo s.history (s.historyIndex + 1) ++ [snap]).length
       then (jsSliceTo s.history (s.historyIndex + 1) ++ [snap]).drop 1
       else jsSliceTo s.history (s.historyIndex + 1) ++ [snap]))
    ∧ (pushHistory s snap).historyIndex =
        ((pushHistory s snap).history.length : ℤ) - 1
    ∧ (pushHistory s snap).history.length ≤ 20
    ∧ ∀ snaps : List α,
        (snaps.foldl pushHistory initialHistoryState).history.length ≤ 20 := by
  refine ⟨rfl, rfl, pushHistory_length_le s snap hlen, ?_⟩
  intro snaps
  exact foldl_pushHistory_length_le snaps initialHistoryState (by simp [initialHistoryState])

/-- Witness for C1: pushing onto a full 20-entry history keeps the length
at 20 (the oldest entry is evicted) and the index at the last position. -/
theorem pushHistory_capacity_witness :
    (pushHistory (⟨List.replicate 20 0, 19⟩ : HistoryState ℕ) 7).history.length ≤ 20 ∧
    (pushHistory (⟨List.replicate 20 0, 19⟩ : HistoryState ℕ) 7).historyIndex =
      ((pushHistory (⟨List.replicate 20 0, 19⟩ : HistoryState ℕ) 7).history.length : ℤ) - 1 := by
  have h := pushHistory_capacity (⟨List.replicate 20 0, 19⟩ : HistoryState ℕ) 7 (by simp)
  exact ⟨h.2.2.1, h.2.1⟩

/-- C2.  On a store satisfying the index invariant, `undo` returns the
no-op signal `none` exactly when the index is not greater than 0, leaving
the store untouched; otherwise it decrements the index and returns the
(present) snapshot now at the index.  `redo` returns `none` exactly when
the index is at the last entry (which includes the empty history), else
it increments the index and returns the (present) snapshot at the new
index.  Neither boundary case is an error: both are plain returns. -/
theorem undo_redo_boundary {α : Type} (s : HistoryState α) (h : ValidHistory s) :
    ((undo s).1 = none ↔ s.historyIndex ≤ 0)
    ∧ (s.historyIndex ≤ 0 → (undo s).2 = s)
    ∧ (0 < s.historyIndex →
        (undo s).2 = { s with historyIndex := s.historyIndex - 1 }
        ∧ (undo s).1 = jsIndex s.history (s.historyIndex - 1)
        ∧ ((undo s).1).isSome)
    ∧ ((redo s).1 = none ↔ s.historyIndex = (s.history.length : ℤ) - 1)
    ∧ (s.historyIndex = (s.history.length : ℤ) - 1 → (redo s).2 = s)
    ∧ (s.historyIndex < (s.history.length : ℤ) - 1 →
        (redo s).2 = { s with historyIndex := s.historyIndex + 1 }
        ∧ (redo s).1 = jsIndex s.history (s.historyIndex + 1)
        ∧ ((redo s).1).isSome) := by
  obtain ⟨hlo, hhi⟩ := h
  refine ⟨?_, ?_, ?_, ?_, ?_, ?_⟩
  · constructor
    · intro hn
      by_contra hpos
      have hne : ¬ s.historyIndex ≤ 0 := hpos
      have hs : ((undo s).1).isSome := by
        rw [undo, if_neg hne]
        exact get?_isSome_of_int _ _ (by omega) (by omega)
      rw [hn] at hs
      simp at hs
    · intro hle
      rw [undo, if_pos hle]
  · intro hle
    rw [undo, if_pos hle]
  · intro hpos
    have hne : ¬ s.historyIndex ≤ 0 := by omega
    refine ⟨by rw [undo, if_neg hne], by rw [undo, if_neg hne], ?_⟩
    rw [undo, if_neg hne]
    exact get?_isSome_of_int _ _ (by omega) (by omega)
  · by_cases hg : s.historyIndex ≥ (s.history.length : ℤ) - 1
    · rw [redo, if_pos hg]
      simp only [true_iff]
      omega
    · have hs := get?_isSome_of_int s.history (s.historyIndex + 1)
        (by omega) (by omega)
      rw [redo, if_neg hg]
      constructor
      · intro hn
        have hn2 : jsIndex s.history (s.historyIndex + 1) = none := hn
        rw [hn2] at hs
        simp at hs
      · intro he
        exact absurd he (by omega)
  · intro he
    rw [redo, if_pos (by omega)]
  · intro hlt
    have hg : ¬ s.historyIndex ≥ (s.history.length : ℤ) - 1 := by omega
    refine ⟨by rw [redo, if_neg hg], by rw [redo, if_neg hg], ?_⟩
    rw [redo, if_neg hg]
    exact get?_isSome_of_int _ _ (by omega) (by omega)

/-- Witness for C2 at a concrete valid store `⟨[10, 20, 30], 1⟩`: undo
returns the entry at index 0 and moves the index to 0; redo is available. -/
theorem undo_redo_boundary_witness :
    (undo (⟨[10, 20, 30], 1⟩ : HistoryState ℕ)).1 = jsIndex [10, 20, 30] 0
    ∧ (redo (⟨[10, 20, 30], 1⟩ : HistoryState ℕ)).1 = jsIndex [10, 20, 30] 2 := by
  have h := undo_redo_boundary (⟨[10, 20, 30], 1⟩ : HistoryState ℕ)
    (by constructor <;> decide)
  exact ⟨(h.2.2.1 (by decide)).2.1, (h.2.2.2.2.2 (by decide)).2.1⟩

/-- C3.  From a valid store with index `i > 0` and no intervening push,
undo then redo return the snapshots at positions `i-1` and `i` (both
present), restore the index to `i` — so redo returns exactly the snapshot
current before the undo — and repeating the cycle any number of times is
idempotent, producing the same pair each cycle. -/
theorem undo_redo_roundtrip {α : Type} (s : HistoryState α)
    (h1 : 0 < s.historyIndex) (h2 : s.historyIndex < (s.history.length : ℤ)) :
    (undoRedoCycle s).1 = jsIndex s.history (s.historyIndex - 1)
    ∧ (undoRedoCycle s).2.1 = jsIndex s.history s.historyIndex
    ∧ (undoRedoCycle s).2.2 = s
    ∧ ((undoRedoCycle s).1).isSome
    ∧ ((undoRedoCycle s).2.1).isSome
    ∧ (∀ n : ℕ, cycleState^[n] s = s)
    ∧ (∀ n : ℕ, undoRedoCycle (cycleState^[n] s) = undoRedoCycle s) := by
  have hne : ¬ s.historyIndex ≤ 0 := by omega
  have hu : undo s =
      (jsIndex s.history (s.historyIndex - 1),
        { s with historyIndex := s.historyIndex - 1 }) := by
    rw [undo, if_neg hne]
  have hg : ¬ (s.historyIndex - 1 ≥ (s.history.length : ℤ) - 1) := by omega
  have hr : redo { s with historyIndex := s.historyIndex - 1 } =
      (jsIndex s.history (s.historyIndex - 1 + 1),
        { s with historyIndex := s.historyIndex - 1 + 1 }) := by
    rw [redo, if_neg hg]
  have hidx : s.historyIndex - 1 + 1 = s.historyIndex := by omega
  have hcycle : undoRedoCycle s =
      (jsIndex s.history (s.historyIndex - 1), jsIndex s.history s.historyIndex, s) := by
    rw [undoRedoCycle]
    simp only [hu, hr, hidx]
  have hfix : cycleState s = s := by
    rw [cycleState, hcycle]
  refine ⟨by rw [hcycle], by rw [hcycle], by rw [hcycle], ?_, ?_, ?_, ?_⟩
  · rw [hcycle]
    exact get?_isSome_of_int _ _ (by omega) (by omega)
  · rw [hcycle]
    exact get?_isSome_of_int _ _ (by omega) (by omega)
  · intro n
    exact Function.iterate_fixed hfix n
  · intro n
    rw [Function.iterate_fixed hfix n]

/-- Witness for C3 at `⟨[5, 6, 7], 2⟩`: the cycle returns the snapshots
at positions 1 and 2 and restores the store. -/
theorem undo_redo_roundtrip_witness :
    (undoRedoCycle (⟨[5, 6, 7], 2⟩ : HistoryState ℕ)).2.2 =
      (⟨[5, 6, 7], 2⟩ : HistoryState ℕ)
    ∧ (undoRedoCycle (⟨[5, 6, 7], 2⟩ : HistoryState ℕ)).1 = jsIndex [5, 6, 7] 1 := by
  have h := undo_redo_roundtrip (⟨[5, 6, 7], 2⟩ : HistoryState ℕ)
    (by decide) (by decide)
  exact ⟨h.2.2.1, h.1⟩

/-- C10.  `undo` and `redo` never modify the snapshot sequence itself —
only the index — so after any interleaving of undo and redo calls the
history array is unchanged (and with it every entry ahead of the current
index stays recoverable). -/
theorem undo_redo_frame {α : Type} (s : HistoryState α) (ops : List Bool) :
    (undo s).2.history = s.history
    ∧ (redo s).2.history = s.history
    ∧ (ops.foldl applyHistOp s).history = s.history := by
  refine ⟨undo_history_eq s, redo_history_eq s, ?_⟩
  induction ops generalizing s with
  | nil => rfl
  | cons op rest ih =>
      have hstep : (applyHistOp s op).history = s.history := by
        unfold applyHistOp
        split
        · exact undo_history_eq s
        · exact redo_history_eq s
      calc (List.foldl applyHistOp s (op :: rest)).history
          = (List.foldl applyHistOp (applyHistOp s op) rest).history := rfl
        _ = (applyHistOp s op).history := ih (applyHistOp s op)
        _ = s.history := hstep

/-- Move events, while a stroke is in progress, only draw and advance the
last position: `pushed` and `isDrawing` are untouched and the mask folds
the drawn segments. -/
theorem runBrush_moves {P M : Type} (draw : M → P → P → M) (moves : List P)
    (q : P) (m : M) (pushed : List M) :
    runBrush draw ⟨true, some q, m, pushed⟩ (moves.map BrushEvent.move) =
      ⟨true, some ((moves.foldl (fun acc r => (draw acc.1 acc.2 r, r)) (m, q)).2),
        (moves.foldl (fun acc r => (draw acc.1 acc.2 r, r)) (m, q)).1, pushed⟩ := by
  induction moves generalizing q m with
  | nil => rfl
  | cons r rest ih =>
      simp only [List.map_cons, List.foldl_cons]
      exact ih r (draw m q r)

/-- A single event never removes pushed snapshots, and a move event never
adds one. -/
theorem handleBrushEvent_move_pushed {P M : Type} (draw : M → P → P → M)
    (s : BrushEngine P M) (p : P) :
    (handleBrushEvent draw s (BrushEvent.move p)).pushed = s.pushed := by
  unfold handleBrushEvent
  rcases s with ⟨d, lp, m, ps⟩
  cases d <;> cases lp <;> rfl

/-- Runs of move events never push history, from any engine state. -/
theorem runBrush_moves_pushed {P M : Type} (draw : M → P → P → M)
    (moves : List P) (t : BrushEngine P M) :
    (runBrush draw t (moves.map BrushEvent.move)).pushed = t.pushed := by
  induction moves generalizing t with
  | nil => rfl
  | cons r rest ih =>
      calc (runBrush draw t ((r :: rest).map BrushEvent.move)).pushed
          = (runBrush draw (handleBrushEvent draw t (BrushEvent.move r))
              (rest.map BrushEvent.move)).pushed := rfl
        _ = (handleBrushEvent draw t (BrushEvent.move r)).pushed := ih _
        _ = t.pushed := handleBrushEvent_move_pushed draw t r

/-- C4.  A brush stroke — pointer/touch-down in drawing mode, any number
of move events, ended by pointer-up or by the pointer leaving the surface
— pushes exactly one history snapshot, namely the post-stroke mask, and
ends with the drawing flag cleared; intermediate move events never push
history (from any engine state), and a stroke terminated by leaving the
surface pushes just the same. -/
theorem stroke_pushes_exactly_once {P M : Type} (draw : M → P → P → M)
    (s : BrushEngine P M) (p : P) (moves : List P) (term : BrushEvent P)
    (hidle : s.isDrawing = false)
    (hterm : term = BrushEvent.up ∨ term = BrushEvent.leave) :
    (runBrush draw s (BrushEvent.down p :: moves.map BrushEvent.move ++ [term])).pushed
      = s.pushed ++ [strokeResult draw s.mask p moves]
    ∧ (runBrush draw s (BrushEvent.down p :: moves.map BrushEvent.move ++ [term])).isDrawing
      = false
    ∧ ∀ t : BrushEngine P M,
        (runBrush draw t (moves.map BrushEvent.move)).pushed = t.pushed := by
  rcases s with ⟨d, lp, m, ps⟩
  have hdown : handleBrushEvent draw ⟨d, lp, m, ps⟩ (BrushEvent.down p) =
      ⟨true, some p, m, ps⟩ := rfl
  have hrun : runBrush draw ⟨d, lp, m, ps⟩
      (BrushEvent.down p :: moves.map BrushEvent.move ++ [term]) =
      handleBrushEvent draw
        (runBrush draw ⟨true, some p, m, ps⟩ (moves.map BrushEvent.move)) term := by
    rw [runBrush, List.cons_append, List.foldl_cons, List.foldl_append,
      List.foldl_cons, List.foldl_nil]
    rfl
  rw [hrun, runBrush_moves]
  rcases hterm with h | h <;> subst h
  · exact ⟨by simp [handleBrushEvent, strokeResult], rfl,
      fun t => runBrush_moves_pushed draw moves t⟩
  · exact ⟨by simp [handleBrushEvent, strokeResult], rfl,
      fun t => runBrush_moves_pushed draw moves t⟩

/-- Witness for C4: a concrete stroke (down at 1, moves through 2 and 3,
terminated by leaving the surface) pushes exactly the one post-stroke
mask.  Masks are modelled as `ℕ` with an additive drawing primitive. -/
theorem stroke_pushes_exactly_once_witness :
    (runBrush (fun m a b => m + a + b) (⟨false, none, 0, []⟩ : BrushEngine ℕ ℕ)
        (BrushEvent.down 1 :: [2, 3].map BrushEvent.move ++ [BrushEvent.leave])).pushed
      = [strokeResult (fun m a b => m + a + b) 0 1 [2, 3]] := by
  have h := stroke_pushes_exactly_once (fun m a b => m + a + b)
    (⟨false, none, 0, []⟩ : BrushEngine ℕ ℕ) 1 [2, 3] BrushEvent.leave rfl
    (Or.inr rfl)
  simpa using h.1

/-- Drawing a pixel over a cleared destination keeps it, except that a
fully transparent pixel normalizes to transparent black. -/
theorem sourceOverPx_clear (c : RGBA) :
    sourceOverPx c clearColor = if c.a = 0 then clearColor else c := by
  cases c with
  | mk r g b a =>
      by_cases h : a = 0
      · simp [sourceOverPx, clearColor, h]
      · simp only [sourceOverPx, clearColor]
        simp only [mul_zero, zero_mul, add_zero]
        rw [if_neg h, if_neg h]
        congr 1 <;> exact mul_div_cancel_right₀ _ h

/-- A fully opaque source pixel replaces the destination. -/
theorem sourceOverPx_opaque (src dst : RGBA) (h : src.a = 1) :
    sourceOverPx src dst = src := by
  cases src with
  | mk r g b a =>
      simp only at h
      subst h
      simp [sourceOverPx]

/-- The alpha of the export composite at any point is the product of the
image's and the mask's alpha there. -/
theorem export_alpha_eq (orig mask : Raster) (q : CPoint) :
    (drawMaskedForeground clearRaster orig mask q).a = (orig q).a * (mask q).a := by
  simp only [drawMaskedForeground, compositeOver, clearRaster, maskedForegroundLayer,
    destinationInPx, sourceOverPx_clear]
  split_ifs with h1 h2 h3 <;> simp_all [clearColor]

/-- The C5 counterexample's amended companion fact is stated over the
real store operations; this helper rewrites the refine-zoom clamp. -/
theorem setRefineZoom_zoom (s : AppState) (v : ℚ) :
    (setRefineZoom s v).refineEdgesState.zoom = max 1 (min 4 v) := rfl

/-- C5 counterexample.  Setting the main editor's zoom to `5.0` through
the slider/`setEditState` path stores `5.0`, not the claimed clamp `3.0`;
setting `0.1` stores `0.1`, not `0.5`.  The stored value escapes
`[0.5, 3.0]`. -/
theorem zoom_unclamped_counterexample :
    (handleZoomChange initialAppState 5).editState.zoom = 5
    ∧ ¬ (handleZoomChange initialAppState 5).editState.zoom ≤ 3
    ∧ (handleZoomChange initialAppState (1 / 10)).editState.zoom = 1 / 10
    ∧ ¬ (1 / 2 : ℚ) ≤ (handleZoomChange initialAppState (1 / 10)).editState.zoom := by
  refine ⟨rfl, by norm_num [handleZoomChange, setEditState, setHasUnsavedEdits,
    mergeEditState], rfl, by norm_num [handleZoomChange, setEditState,
    setHasUnsavedEdits, mergeEditState]⟩

/-- C5 amended.  `setEditState` (and hence the slider's
`handleZoomChange`) stores the given zoom unchanged — the main editor has
no store-side clamp, out-of-range programmatic values persist — while the
two paths that do clamp are the refine viewport's `setRefineZoom`
(to `[1.0, 4.0]`) and the variant preview's wheel handler (to
`[0.5, 3.0]` before storing). -/
theorem zoom_clamp_per_origin (s : AppState) (v deltaY : ℚ) :
    (handleZoomChange s v).editState.zoom = v
    ∧ (setRefineZoom s v).refineEdgesState.zoom = max 1 (min 4 v)
    ∧ 1 ≤ (setRefineZoom s v).refineEdgesState.zoom
    ∧ (setRefineZoom s v).refineEdgesState.zoom ≤ 4
    ∧ 1 / 2 ≤ handleWheelNewZoom v deltaY
    ∧ handleWheelNewZoom v deltaY ≤ 3 := by
  refine ⟨rfl, rfl, ?_, ?_, ?_, ?_⟩
  · rw [setRefineZoom_zoom]
    exact le_max_left _ _
  · rw [setRefineZoom_zoom]
    exact max_le (by norm_num) (min_le_left _ _)
  · unfold handleWheelNewZoom
    exact le_max_left _ _
  · unfold handleWheelNewZoom
    exact max_le (by norm_num) (min_le_left _ _)

/-- C6.  Exporting with a transparent background skips the checkerboard
entirely: the exported alpha is `orig.a * mask.a` everywhere — in
particular exactly 0 wherever the mask's alpha is 0 — and wherever that
product is non-zero the pixel keeps the source image's color weighted by
the mask's alpha. -/
theorem export_transparent_alpha (orig mask : Raster) (w h : ℚ) (p : CPoint)
    (hm : (mask p).a = 0) :
    (createExportCanvas orig mask Background.transparent w h p).a = 0
    ∧ (∀ q, (createExportCanvas orig mask Background.transparent w h q).a =
        (orig q).a * (mask q).a)
    ∧ (∀ q, (orig q).a * (mask q).a ≠ 0 →
        createExportCanvas orig mask Background.transparent w h q =
          ⟨(orig q).r, (orig q).g, (orig q).b, (orig q).a * (mask q).a⟩) := by
  have halpha : ∀ q, (createExportCanvas orig mask Background.transparent w h q).a =
      (orig q).a * (mask q).a := by
    intro q
    exact export_alpha_eq orig mask q
  refine ⟨by rw [halpha p, hm, mul_zero], halpha, ?_⟩
  intro q hq
  have ho : (orig q).a ≠ 0 := fun h0 => hq (by rw [h0, zero_mul])
  show drawMaskedForeground clearRaster orig mask q = _
  simp only [drawMaskedForeground, compositeOver, clearRaster, maskedForegroundLayer,
    destinationInPx, sourceOverPx_clear]
  rw [if_neg ho]
  exact if_neg hq

/-- Witness for C6: a concrete image and a mask transparent on the left
half give export alpha 0 at the origin. -/
theorem export_transparent_alpha_witness :
    (createExportCanvas (fun _ => ⟨1 / 2, 1 / 3, 1 / 4, 1⟩)
      (fun q => if q.1 < 5 then ⟨0, 0, 0, 0⟩ else ⟨1, 1, 1, 1⟩)
      Background.transparent 800 600 ((0 : ℚ), (0 : ℚ))).a = 0 := by
  have h := export_transparent_alpha (fun _ => ⟨1 / 2, 1 / 3, 1 / 4, 1⟩)
    (fun q => if q.1 < 5 then ⟨0, 0, 0, 0⟩ else ⟨1, 1, 1, 1⟩) 800 600
    ((0 : ℚ), (0 : ℚ)) (by norm_num)
  exact h.1

set_option maxHeartbeats 2000000

/-- C7.  In the unnamed EditPreview variant (part_001) the filter is
reset only after the masked foreground is drawn, so a non-default filter
changes the rendered foreground: at a fully opaque foreground pixel the
render with `blur 5` differs from the render with default filters.  The
named EditPreview.tsx pipeline, which resets filters before the
foreground, renders identically under both filter settings at the same
pixel. -/
theorem variant_filters_affect_foreground :
    renderPreviewVariant id effDemo ⟨100, 100, 100, 5⟩ (Background.color ⟨1, 0, 0, 1⟩)
        100 100 (fun _ => ⟨1, 1, 1, 1⟩) (fun _ => ⟨1, 1, 1, 1⟩) ((0 : ℚ), (0 : ℚ))
      ≠ renderPreviewVariant id effDemo editInitialState.filters
        (Background.color ⟨1, 0, 0, 1⟩)
        100 100 (fun _ => ⟨1, 1, 1, 1⟩) (fun _ => ⟨1, 1, 1, 1⟩) ((0 : ℚ), (0 : ℚ))
    ∧ renderPreview id effDemo ⟨100, 100, 100, 5⟩ (Background.color ⟨1, 0, 0, 1⟩)
        100 100 (fun _ => ⟨1, 1, 1, 1⟩) (fun _ => ⟨1, 1, 1, 1⟩) ((0 : ℚ), (0 : ℚ))
      = renderPreview id effDemo editInitialState.filters
        (Background.color ⟨1, 0, 0, 1⟩)
        100 100 (fun _ => ⟨1, 1, 1, 1⟩) (fun _ => ⟨1, 1, 1, 1⟩) ((0 : ℚ), (0 : ℚ)) := by
  have hne : buildFilterString ⟨100, 100, 100, 5⟩ ≠ strNone := by decide
  have hdef : buildFilterString editInitialState.filters = strNone := by decide
  have hmfl : maskedForegroundLayer (fun _ => (⟨1, 1, 1, 1⟩ : RGBA))
      (fun _ => ⟨1, 1, 1, 1⟩) ((0 : ℚ), (0 : ℚ)) = ⟨1, 1, 1, 1⟩ := by
    norm_num [maskedForegroundLayer, destinationInPx, sourceOverPx, clearColor]
  constructor
  · simp only [renderPreviewVariant, compositeOver, id_eq]
    generalize hg1 : buildFilterString ⟨100, 100, 100, 5⟩ = fs1
    generalize hg2 : buildFilterString editInitialState.filters = fs0
    rw [hg1] at hne
    rw [hg2] at hdef
    rw [hdef]
    simp only [effDemo, if_neg hne, eq_self_iff_true, if_true, previewBackgroundLayer]
    rw [hmfl]
    norm_num [sourceOverPx, clearRaster, clearColor, RGBA.mk.injEq]
  · simp only [renderPreview, compositeOver, id_eq]
    generalize hg1 : buildFilterString ⟨100, 100, 100, 5⟩ = fs1
    generalize hg2 : buildFilterString editInitialState.filters = fs0
    rw [hg1] at hne
    rw [hg2] at hdef
    rw [hdef]
    simp only [effDemo, if_neg hne, eq_self_iff_true, if_true, previewBackgroundLayer]
    rw [hmfl, sourceOverPx_opaque _ _ rfl, sourceOverPx_opaque _ _ rfl]

set_option maxHeartbeats 200000

/-- C8 counterexample.  On a mask that is already transparent, an erase
stroke followed by a restore stroke over the same genuine segment
(0,0)-(2,0) and radius 5 yields 255 at the covered point (0,0) where the
original mask had 0 — a full 255 difference, far outside rounding
tolerance, so erase-then-restore does not return every mask to its
pre-erase state. -/
theorem erase_restore_not_inverse :
    drawBrushLine (drawBrushLine (fun _ => (0 : ℚ)) (0, 0) (2, 0) 5 1 BrushMode.erase)
        (0, 0) (2, 0) 5 1 BrushMode.restore ((0 : ℚ), (0 : ℚ)) = 255
    ∧ (fun _ : CPoint => (0 : ℚ)) ((0 : ℚ), (0 : ℚ)) = 0
    ∧ (255 : ℚ) ≠ 0 := by
  refine ⟨?_, rfl, by norm_num⟩
  norm_num [drawBrushLine, sqDistToSegment, Prod.ext_iff, Prod.fst_zero,
    Prod.snd_zero, max_def, min_def]

/-- C8 amended.  For every mask that is fully opaque (255) on the
stroke's covered region, erase-then-restore over the exact same path and
radius returns the mask exactly to its pre-erase state (covered pixels
back to 255, uncovered pixels untouched); on other masks restore sets
covered pixels to 255 rather than their pre-erase value. -/
theorem erase_restore_inverse_on_opaque (m : MaskR) (a b : CPoint)
    (size scale : ℚ)
    (hfull : ∀ p, sqDistToSegment p a b ≤ size * scale * (size * scale) →
      m p = 255) :
    ∀ p, drawBrushLine (drawBrushLine m a b size scale BrushMode.erase)
      a b size scale BrushMode.restore p = m p := by
  intro p
  by_cases hc : a ≠ b ∧ sqDistToSegment p a b ≤ size * scale * (size * scale)
  · simp [drawBrushLine, hc, hfull p hc.2]
  · simp [drawBrushLine, hc]

/-- Witness for C8 at a fully opaque mask, a real segment and an interior
point. -/
theorem erase_restore_inverse_on_opaque_witness :
    drawBrushLine (drawBrushLine (fun _ => (255 : ℚ)) (0, 0) (2, 0) 3 1 BrushMode.erase)
      (0, 0) (2, 0) 3 1 BrushMode.restore ((1 : ℚ), (1 : ℚ)) = 255 :=
  erase_restore_inverse_on_opaque (fun _ => 255) (0, 0) (2, 0) 3 1
    (fun _ _ => rfl) ((1 : ℚ), (1 : ℚ))

/-- C9.  A bounds-enforced crop box can escape the surface: dragging the
bottom-right handle by (150, 150) from the valid box (0, 0, 50, 50) with
a 1:1 aspect lock on a 100x100 canvas produces the pre-bounds box
(0, 0, 200, 200), and `enforceBounds` returns (0, -100, 100, 100) — the
y-clamp ran against the pre-shrink height and the width-shrink branch
reset only `x`, leaving `y = -100 < 0`, outside the canvas. -/
theorem enforceBounds_escapes_bounds :
    dragCrop HandleType.br ⟨0, 0, 50, 50⟩ 150 150 (some 1) = ⟨0, 0, 200, 200⟩
    ∧ cropDragRecompute HandleType.br ⟨0, 0, 50, 50⟩ 150 150 (some 1) 100 100 =
        ⟨0, -100, 100, 100⟩
    ∧ (cropDragRecompute HandleType.br ⟨0, 0, 50, 50⟩ 150 150 (some 1) 100 100).y
        < 0 := by
  have habs : |(150 : ℚ)| = 150 := abs_of_pos (by norm_num)
  norm_num [cropDragRecompute, dragCrop, cornerAspect, enforceBounds,
    MIN_CROP_SIZE, habs, max_def, min_def, CropBox.mk.injEq]

end Clearcut
